import Mathlib

/-!
Verification of the San Jose crash-data dashboard (`src/app.py`).

The dashboard builds SQL WHERE fragments from the user's filter selections,
executes aggregation queries against a warehouse, reshapes the returned
tables and renders them.  This file gives a shallow embedding of that
pipeline: the string-building code is embedded over `String`/`List Char`,
the dataframe reshaping over `List`, the warehouse and its cache as
explicit data.  Theorems at the end settle the specification claims.
-/

namespace CrashApp

/-! ### Query Builder (src/app.py lines 88-99)

`where_clauses` starts from the mandatory non-null-intersection clause and
appends a year clause when `selected_years` is non-empty and a severity
clause when `selected_severities` is non-empty; `where_clause` joins the
clauses with " AND ".  Years are rendered with `str` (decimal), severities
are wrapped in single quotes with no escaping. -/

def mandatory_clause : String :=
  "INTASTREETNAME IS NOT NULL AND INTBSTREETNAME IS NOT NULL"

def years_str (ys : List Int) : String :=
  String.intercalate ", " (ys.map toString)

def year_clause (ys : List Int) : String :=
  "EXTRACT(YEAR FROM DATE) IN (" ++ years_str ys ++ ")"

/-- The single-quote character used by the Python f-string around severities. -/
def sq : Char := '\''

/-- Embedding of the Python expression occurring at src/app.py line 96. -/
def quoteSev (s : String) : String :=
  String.singleton sq ++ s ++ String.singleton sq

def severities_str (ss : List String) : String :=
  String.intercalate ", " (ss.map quoteSev)

def severity_clause (ss : List String) : String :=
  "SEVERITY_CATEGORY IN (" ++ severities_str ss ++ ")"

def where_clauses (ys : List Int) (ss : List String) : List String :=
  [mandatory_clause]
    ++ (if ys.isEmpty then [] else [year_clause ys])
    ++ (if ss.isEmpty then [] else [severity_clause ss])

def where_clause (ys : List Int) (ss : List String) : String :=
  String.intercalate " AND " (where_clauses ys ss)

/-! ### Decimal numerals

The generated year clause contains the decimal rendering of each selected
year.  To give the generated fragment its SQL meaning we need that the
decimal rendering produced by `toString` (Lean's counterpart of Python's
`str`) is read back correctly by a digit scanner. -/

/-- Recognizer for ASCII decimal digits. -/
def isDig (c : Char) : Bool := 48 ≤ c.toNat && c.toNat ≤ 57

/-- Numeric value of an ASCII decimal digit. -/
def digitVal (c : Char) : Nat := c.toNat - 48

/-- Value of a most-significant-first digit string. -/
def digitsVal (cs : List Char) : Nat := cs.foldl (fun a c => a * 10 + digitVal c) 0

theorem digitChar_isDig : ∀ m, m < 10 → isDig (Nat.digitChar m) = true := by decide

theorem digitChar_val : ∀ m, m < 10 → digitVal (Nat.digitChar m) = m := by decide

theorem toDigitsCore_append (b : Nat) :
    ∀ (fuel n : Nat) (ds : List Char),
      Nat.toDigitsCore b fuel n ds = Nat.toDigitsCore b fuel n [] ++ ds := by
  intro fuel
  induction fuel with
  | zero => intro n ds; simp [Nat.toDigitsCore]
  | succ f ih =>
    intro n ds
    simp only [Nat.toDigitsCore]
    by_cases h : n / b = 0
    · simp [h]
    · simp only [if_neg h]
      rw [ih (n / b) (Nat.digitChar (n % b) :: ds), ih (n / b) [Nat.digitChar (n % b)]]
      simp

theorem digitsVal_append_single (cs : List Char) (c : Char) :
    digitsVal (cs ++ [c]) = digitsVal cs * 10 + digitVal c := by
  simp [digitsVal]

theorem toDigitsCore_spec :
    ∀ (fuel n : Nat), n < fuel →
      digitsVal (Nat.toDigitsCore 10 fuel n []) = n ∧
      Nat.toDigitsCore 10 fuel n [] ≠ [] ∧
      (Nat.toDigitsCore 10 fuel n []).all isDig = true := by
  intro fuel
  induction fuel with
  | zero => intro n h; omega
  | succ f ih =>
    intro n h
    simp only [Nat.toDigitsCore]
    by_cases h0 : n / 10 = 0
    · have hn : n < 10 := by omega
      have hm : n % 10 = n := Nat.mod_eq_of_lt hn
      simp only [if_pos h0]
      refine ⟨?_, by simp, ?_⟩
      · simp [digitsVal, hm, digitChar_val n hn]
      · simp [hm, digitChar_isDig n hn]
    · have hlt : n / 10 < f := by omega
      obtain ⟨hval, hne, hdig⟩ := ih (n / 10) hlt
      simp only [if_neg h0]
      rw [toDigitsCore_append 10 f (n / 10) [Nat.digitChar (n % 10)]]
      have hm : n % 10 < 10 := Nat.mod_lt n (by omega)
      refine ⟨?_, by simp, ?_⟩
      · rw [digitsVal_append_single, hval, digitChar_val _ hm]
        omega
      · simp [hdig, digitChar_isDig _ hm]

theorem natRepr_data (n : Nat) :
    (Nat.repr n).data = Nat.toDigitsCore 10 (n + 1) n [] := rfl

theorem natRepr_spec (n : Nat) :
    digitsVal (Nat.repr n).data = n ∧ (Nat.repr n).data ≠ [] ∧
      ((Nat.repr n).data).all isDig = true := by
  rw [natRepr_data]
  exact toDigitsCore_spec (n + 1) n (Nat.lt_succ_self n)

/-! ### A reference reader for SQL literal lists

The warehouse gives the generated fragment `X IN (lit, lit, ...)` its SQL
meaning by lexing the parenthesised literal list.  The readers below are a
reference model of that lexing: `consumeIntLit` consumes one optionally
signed decimal literal, `consumeQuotedLit` one single-quoted string literal
(SQL-style, no escaping, matching the app which performs none). -/

/-- Suffix shapes that can legally follow a literal inside the list: the end
of the list, or the ", " separator. -/
def sepOk (t : List Char) : Prop := t = [] ∨ t.head? = some ','

theorem takeWhile_all_append (p : Char → Bool) :
    ∀ (l t : List Char), l.all p = true →
      (t = [] ∨ ∃ c t2, t = c :: t2 ∧ p c = false) →
      (l ++ t).takeWhile p = l ∧ (l ++ t).dropWhile p = t := by
  intro l
  induction l with
  | nil =>
    intro t _ ht
    rcases ht with rfl | ⟨c, t2, rfl, hc⟩
    · simp
    · simp [List.takeWhile_cons, List.dropWhile_cons, hc]
  | cons a l ih =>
    intro t hall ht
    simp only [List.all_cons, Bool.and_eq_true] at hall
    obtain ⟨h1, h2⟩ := ih t hall.2 ht
    simp [List.takeWhile_cons, List.dropWhile_cons, hall.1, h1, h2]

/-- Consume a maximal run of decimal digits as a natural-number literal. -/
def consumeNatLit (cs : List Char) : Option (Nat × List Char) :=
  let ds := cs.takeWhile isDig
  if ds.isEmpty then none else some (digitsVal ds, cs.dropWhile isDig)

/-- Consume an optionally minus-signed decimal integer literal. -/
def consumeIntLit (cs : List Char) : Option (Int × List Char) :=
  if cs.head? = some '-' then
    (consumeNatLit cs.tail).map fun r => (-(r.1 : Int), r.2)
  else
    (consumeNatLit cs).map fun r => ((r.1 : Int), r.2)

theorem sepOk_shape (t : List Char) (h : sepOk t) :
    t = [] ∨ ∃ c t2, t = c :: t2 ∧ isDig c = false := by
  rcases h with rfl | hc
  · exact Or.inl rfl
  · cases t with
    | nil => exact Or.inl rfl
    | cons c t2 =>
      simp only [List.head?_cons, Option.some.injEq] at hc
      exact Or.inr ⟨c, t2, rfl, by rw [hc]; decide⟩

theorem consumeNatLit_repr (n : Nat) (t : List Char) (ht : sepOk t) :
    consumeNatLit ((Nat.repr n).data ++ t) = some (n, t) := by
  obtain ⟨hval, hne, hdig⟩ := natRepr_spec n
  obtain ⟨h1, h2⟩ := takeWhile_all_append isDig (Nat.repr n).data t hdig (sepOk_shape t ht)
  simp [consumeNatLit, h1, h2, hval, hne]

theorem consumeIntLit_toString (y : Int) (t : List Char) (ht : sepOk t) :
    consumeIntLit ((toString y).data ++ t) = some (y, t) := by
  cases y with
  | ofNat n =>
    have hd : (toString (Int.ofNat n)).data = (Nat.repr n).data := rfl
    rw [hd]
    obtain ⟨hval, hne, hdig⟩ := natRepr_spec n
    obtain ⟨c, cs, hc⟩ := List.exists_cons_of_ne_nil hne
    have hcdig : isDig c = true := by
      have := hdig
      rw [hc] at this
      simp only [List.all_cons, Bool.and_eq_true] at this
      exact this.1
    have hcne : c ≠ '-' := by
      intro hcc
      rw [hcc] at hcdig
      exact absurd hcdig (by decide)
    have hhead : ((Nat.repr n).data ++ t).head? ≠ some '-' := by
      rw [hc]
      simpa using hcne
    rw [consumeIntLit, if_neg hhead, consumeNatLit_repr n t ht]
    rfl
  | negSucc m =>
    have hd : (toString (Int.negSucc m)).data = '-' :: (Nat.repr (m + 1)).data := rfl
    rw [hd]
    have hhead : ('-' :: ((Nat.repr (m + 1)).data ++ t)).head? = some '-' := rfl
    rw [List.cons_append, consumeIntLit, if_pos hhead]
    show Option.map _ (consumeNatLit ((Nat.repr (m + 1)).data ++ t)) = _
    rw [consumeNatLit_repr (m + 1) t ht]
    rw [Int.negSucc_eq]
    norm_num

/-- Body scanner for a single-quoted SQL string literal: consumes up to the
next single quote; there is no escape mechanism (the app performs no
escaping when it builds the fragment). -/
def litBody : List Char → List Char → Option (String × List Char)
  | [], _ => none
  | c :: rest, acc => if c = sq then some (⟨acc.reverse⟩, rest) else litBody rest (c :: acc)

/-- Consume one single-quoted SQL string literal. -/
def consumeQuotedLit (cs : List Char) : Option (String × List Char) :=
  if cs.head? = some sq then litBody cs.tail [] else none

theorem litBody_no_quote :
    ∀ (s : List Char) (t acc : List Char), sq ∉ s →
      litBody (s ++ sq :: t) acc = some (⟨acc.reverse ++ s⟩, t) := by
  intro s
  induction s with
  | nil => intro t acc _; simp [litBody]
  | cons c s ih =>
    intro t acc hq
    simp only [List.mem_cons, not_or] at hq
    rw [List.cons_append, litBody, if_neg (fun h => hq.1 h.symm), ih t (c :: acc) hq.2]
    simp

theorem consumeQuotedLit_spec (s : String) (t : List Char) (hq : sq ∉ s.data) :
    consumeQuotedLit ((quoteSev s).data ++ t) = some (s, t) := by
  have hd : (quoteSev s).data = sq :: (s.data ++ [sq]) := by
    simp [quoteSev, String.singleton, String.push]
  rw [hd]
  have hhead : (sq :: (s.data ++ [sq]) ++ t).head? = some sq := rfl
  rw [consumeQuotedLit, if_pos hhead]
  show litBody (s.data ++ [sq] ++ t) [] = _
  rw [List.append_assoc, List.singleton_append, litBody_no_quote s.data t [] hq]
  simp

/-! ### The separated-literal-list reader -/

/-- Read a non-empty ", "-separated list of literals, each consumed by
`consume`; `fuel` bounds the number of literals. -/
def parseSepList {τ : Type} (consume : List Char → Option (τ × List Char)) :
    Nat → List Char → Option (List τ)
  | 0, _ => none
  | fuel + 1, cs =>
    match consume cs with
    | none => none
    | some (t, rest) =>
      if rest.isEmpty then some [t]
      else if rest.head? = some ',' ∧ rest.tail.head? = some ' ' then
        (parseSepList consume fuel rest.tail.tail).map (t :: ·)
      else none

theorem parseSepList_intercalate {τ : Type}
    (consume : List Char → Option (τ × List Char)) (enc : τ → List Char) :
    ∀ (l : List τ) (fuel : Nat), l ≠ [] → l.length ≤ fuel →
      (∀ x ∈ l, ∀ t, sepOk t → consume (enc x ++ t) = some (x, t)) →
      parseSepList consume fuel (List.intercalate [',', ' '] (l.map enc)) = some l := by
  intro l
  induction l with
  | nil => simp
  | cons x l ih =>
    intro fuel _ hfuel hc
    have hpos : 1 ≤ fuel := le_trans (Nat.succ_le_succ (Nat.zero_le _)) hfuel
    obtain ⟨f, rfl⟩ : ∃ f, fuel = f + 1 := ⟨fuel - 1, by omega⟩
    cases l with
    | nil =>
      have h1 : List.intercalate [',', ' '] ([x].map enc) = enc x ++ [] := by
        simp [List.intercalate]
      rw [h1, parseSepList, hc x (by simp) [] (Or.inl rfl)]
      simp
    | cons y l2 =>
      have h1 : List.intercalate [',', ' '] ((x :: y :: l2).map enc) =
          enc x ++ (',' :: ' ' :: List.intercalate [',', ' '] ((y :: l2).map enc)) := by
        simp only [List.map_cons, List.intercalate, List.intersperse_cons₂, List.flatten_cons]
        simp
      have hccall :=
        hc x (by simp) (',' :: ' ' :: List.intercalate [',', ' '] ((y :: l2).map enc))
          (Or.inr rfl)
      have hlen : (y :: l2).length ≤ f := by
        have h2 : (x :: y :: l2).length = (y :: l2).length + 1 := rfl
        omega
      have hrec := ih f (by simp) hlen (fun z hz => hc z (List.mem_cons_of_mem x hz))
      rw [h1, parseSepList, hccall]
      simp only [List.map_cons] at hrec
      simp [hrec]

theorem length_le_length_intercalate {τ : Type} (enc : τ → List Char)
    (hne : ∀ x, enc x ≠ []) :
    ∀ l : List τ, l.length ≤ (List.intercalate [',', ' '] (l.map enc)).length := by
  intro l
  induction l with
  | nil => simp
  | cons x l ih =>
    cases l with
    | nil =>
      have h1 : List.intercalate [',', ' '] ([x].map enc) = enc x ++ [] := by
        simp [List.intercalate]
      rw [h1]
      have := List.length_pos.mpr (hne x)
      simp
      omega
    | cons y l2 =>
      have h1 : List.intercalate [',', ' '] ((x :: y :: l2).map enc) =
          enc x ++ (',' :: ' ' :: List.intercalate [',', ' '] ((y :: l2).map enc)) := by
        simp only [List.map_cons, List.intercalate, List.intersperse_cons₂, List.flatten_cons]
        simp
      rw [h1]
      simp only [List.length_cons, List.length_append]
      simp only [List.length_cons] at ih
      omega

/-! ### Bridge from `String.intercalate` to `List.intercalate` -/

theorem intercalate_go_data (s : String) :
    ∀ (as : List String) (acc : String),
      (String.intercalate.go acc s as).data =
        acc.data ++ (as.map fun a => s.data ++ a.data).flatten := by
  intro as
  induction as with
  | nil => intro acc; simp [String.intercalate.go]
  | cons a as ih =>
    intro acc
    rw [String.intercalate.go, ih]
    simp

theorem flatten_sep_eq_intercalate (sep : List Char) :
    ∀ (ds : List (List Char)) (a : List Char),
      a ++ (ds.map fun d => sep ++ d).flatten = List.intercalate sep (a :: ds) := by
  intro ds
  induction ds with
  | nil => intro a; simp [List.intercalate]
  | cons b bs ih =>
    intro a
    have hb := ih b
    simp only [List.map_cons, List.flatten_cons] at *
    rw [List.intercalate, List.intersperse_cons₂, List.flatten_cons, List.flatten_cons]
    rw [List.intercalate] at hb
    rw [← hb]
    simp

theorem intercalate_data (s : String) (l : List String) :
    (String.intercalate s l).data = List.intercalate s.data (l.map String.data) := by
  cases l with
  | nil => simp [String.intercalate, List.intercalate]
  | cons a as =>
    rw [String.intercalate, intercalate_go_data]
    rw [List.map_cons]
    rw [← flatten_sep_eq_intercalate s.data (as.map String.data) a.data]
    simp [Function.comp_def]

/-! ### Reading back the generated IN-fragments -/

/-- Consume an expected leading character sequence. -/
def chompLead : List Char → List Char → Option (List Char)
  | [], cs => some cs
  | _ :: _, [] => none
  | p :: ps, c :: cs => if c = p then chompLead ps cs else none

theorem chompLead_append : ∀ (p rest : List Char), chompLead p (p ++ rest) = some rest := by
  intro p
  induction p with
  | nil => intro rest; rfl
  | cons a p ih => intro rest; rw [List.cons_append, chompLead, if_pos rfl, ih]

/-- SQL reading of the generated year fragment
`EXTRACT(YEAR FROM DATE) IN (lit, ..., lit)`: the parenthesised content must
lex as a ", "-separated list of integer literals. -/
def sqlParseYearIn (frag : String) : Option (List Int) :=
  (chompLead ("EXTRACT(YEAR FROM DATE) IN (").data frag.data).bind fun cs =>
    if cs.getLast? = some ')' then parseSepList consumeIntLit (cs.length + 1) cs.dropLast
    else none

/-- A row with the given year satisfies the year fragment iff the fragment is
a well-formed IN-list and the year is among its literals. -/
def sqlYearRowMatches (frag : String) (rowYear : Int) : Bool :=
  ((sqlParseYearIn frag).getD []).contains rowYear

/-- SQL reading of the generated severity fragment
`SEVERITY_CATEGORY IN ('lit', ..., 'lit')`. -/
def sqlParseSeverityIn (frag : String) : Option (List String) :=
  (chompLead ("SEVERITY_CATEGORY IN (").data frag.data).bind fun cs =>
    if cs.getLast? = some ')' then parseSepList consumeQuotedLit (cs.length + 1) cs.dropLast
    else none

def sqlSeverityRowMatches (frag : String) (sev : String) : Bool :=
  ((sqlParseSeverityIn frag).getD []).contains sev

theorem toString_int_data_ne_nil (y : Int) : (toString y).data ≠ [] := by
  cases y with
  | ofNat n =>
    have hd : (toString (Int.ofNat n)).data = (Nat.repr n).data := rfl
    rw [hd]
    exact (natRepr_spec n).2.1
  | negSucc m =>
    have hd : (toString (Int.negSucc m)).data = '-' :: (Nat.repr (m + 1)).data := rfl
    rw [hd]
    simp

theorem years_str_data (ys : List Int) :
    (years_str ys).data =
      List.intercalate [',', ' '] (ys.map fun y => (toString y).data) := by
  rw [years_str, intercalate_data]
  have hsep : (", " : String).data = [',', ' '] := rfl
  rw [hsep, List.map_map]
  rfl

theorem sqlParseYearIn_round (ys : List Int) (h : ys ≠ []) :
    sqlParseYearIn (year_clause ys) = some ys := by
  have hdata : (year_clause ys).data =
      ("EXTRACT(YEAR FROM DATE) IN (").data ++ ((years_str ys).data ++ [')']) := by
    show (("EXTRACT(YEAR FROM DATE) IN (" ++ years_str ys ++ ")").data = _)
    rw [String.data_append, String.data_append, List.append_assoc]
  rw [sqlParseYearIn, hdata, chompLead_append]
  simp only [Option.some_bind, List.getLast?_concat, List.dropLast_concat, if_pos rfl]
  rw [years_str_data]
  refine parseSepList_intercalate consumeIntLit (fun y => (toString y).data) ys _ h ?_
    (fun y _ t ht => consumeIntLit_toString y t ht)
  have h1 := length_le_length_intercalate (fun y => (toString y).data)
    toString_int_data_ne_nil ys
  simp only [List.length_append, List.length_cons, List.length_nil]
  omega

theorem quoteSev_data (s : String) : (quoteSev s).data = sq :: (s.data ++ [sq]) := by
  simp [quoteSev, String.singleton, String.push]

theorem severities_str_data (ss : List String) :
    (severities_str ss).data =
      List.intercalate [',', ' '] (ss.map fun s => (quoteSev s).data) := by
  rw [severities_str, intercalate_data]
  have hsep : (", " : String).data = [',', ' '] := rfl
  rw [hsep, List.map_map]
  rfl

theorem sqlParseSeverityIn_round (ss : List String) (h : ss ≠ [])
    (hq : ∀ s ∈ ss, sq ∉ s.data) :
    sqlParseSeverityIn (severity_clause ss) = some ss := by
  have hdata : (severity_clause ss).data =
      ("SEVERITY_CATEGORY IN (").data ++ ((severities_str ss).data ++ [')']) := by
    show (("SEVERITY_CATEGORY IN (" ++ severities_str ss ++ ")").data = _)
    rw [String.data_append, String.data_append, List.append_assoc]
  rw [sqlParseSeverityIn, hdata, chompLead_append]
  simp only [Option.some_bind, List.getLast?_concat, List.dropLast_concat, if_pos rfl]
  rw [severities_str_data]
  refine parseSepList_intercalate consumeQuotedLit (fun s => (quoteSev s).data) ss _ h ?_
    (fun s hs t ht => consumeQuotedLit_spec s t (hq s hs))
  have h1 := length_le_length_intercalate (fun s => (quoteSev s).data)
    (fun s => by show (quoteSev s).data ≠ []; rw [quoteSev_data]; simp) ss
  simp only [List.length_append, List.length_cons, List.length_nil]
  omega

/-! ### Hourly distribution (src/app.py lines 182-256)

The hourly query returns one `(HOUR, crash_count)` row per hour present.
The app left-joins the result against the 24-row frame of hours 0..23 and
fills missing counts with 0 (`pd.merge(all_hours, hourly_data, on='HOUR',
how='left').fillna(0)`): for each hour of the full frame the matching raw
count is attached, or 0 when no raw row matches. -/

/-- Count attached to hour `h` by the left join: the matching raw row's
count, or the `fillna` 0 when no raw row has this hour. -/
def lookupHour (raw : List (Nat × Nat)) (h : Nat) : Nat :=
  match raw.find? (fun p => p.1 == h) with
  | some p => p.2
  | none => 0

/-- The post-processed hourly series (src/app.py lines 201-202). -/
def fillHours (raw : List (Nat × Nat)) : List (Nat × Nat) :=
  (List.range 24).map fun h => (h, lookupHour raw h)

theorem find?_key_eq_some {α : Type} {β : Type} [DecidableEq β] (k : α → β) :
    ∀ (l : List α), (l.map k).Nodup → ∀ x ∈ l,
      l.find? (fun r => k r == k x) = some x := by
  intro l
  induction l with
  | nil => simp
  | cons a l ih =>
    intro hnodup x hx
    simp only [List.map_cons, List.nodup_cons] at hnodup
    rcases List.mem_cons.mp hx with rfl | hx2
    · rw [List.find?_cons_of_pos _ (by simp)]
    · have hne : (k a == k x) = false := by
        simp only [beq_eq_false_iff_ne, ne_eq]
        intro he
        exact hnodup.1 (he ▸ List.mem_map_of_mem k hx2)
      rw [List.find?_cons_of_neg _ (by simp [hne]), ih hnodup.2 x hx2]

theorem lookupHour_mem (raw : List (Nat × Nat)) (hnodup : (raw.map Prod.fst).Nodup)
    (p : Nat × Nat) (hp : p ∈ raw) : lookupHour raw p.1 = p.2 := by
  have := find?_key_eq_some Prod.fst raw hnodup p hp
  rw [lookupHour, this]

/-! ### Hourly rendering and export (src/app.py lines 182-256)

The user picks one of three chart styles; the chart is built from the
post-processed series, rush-hour bands are overlaid and the peak hour is
called out; the same series is offered as a CSV download. -/

inductive ChartType
  | line
  | bar
  | area

/-- First `(hour, count)` row attaining the maximal count (pandas `idxmax`
returns the first maximal row). -/
def peakHour (data : List (Nat × Nat)) : Nat × Nat :=
  match data with
  | [] => (0, 0)
  | p :: rest => rest.foldl (fun best q => if q.2 > best.2 then q else best) p

structure HourlyChart where
  kind : ChartType
  xs : List Nat
  ys : List Nat
  markers : Bool
  colorScaled : Bool
  rushBands : List (Nat × Nat)
  peakNote : Nat × Nat

/-- Chart built by the branch on `chart_type` (src/app.py lines 204-245);
the three branches differ only in style, all read the same series. -/
def buildHourlyChart (ct : ChartType) (data : List (Nat × Nat)) : HourlyChart :=
  { kind := ct
    xs := data.map Prod.fst
    ys := data.map Prod.snd
    markers := match ct with | ChartType.line => true | _ => false
    colorScaled := match ct with | ChartType.bar => true | _ => false
    rushBands := [(7, 9), (16, 19)]
    peakNote := peakHour data }

/-- The CSV export of the post-processed series
(`hourly_data.to_csv(index=False)`, src/app.py line 250). -/
def hourly_csv (data : List (Nat × Nat)) : String :=
  "HOUR,crash_count\n" ++
    String.join (data.map fun p => toString p.1 ++ "," ++ toString p.2 ++ "\n")

structure HourlySection where
  data : List (Nat × Nat)
  chart : HourlyChart
  csv : String

/-- The whole hourly report: post-process the raw aggregation once, then
derive the selected chart and the CSV export from that series. -/
def hourlySection (ct : ChartType) (raw : List (Nat × Nat)) : HourlySection :=
  { data := fillHours raw
    chart := buildHourlyChart ct (fillHours raw)
    csv := hourly_csv (fillHours raw) }

/-! ### DayxHour heatmap (src/app.py lines 260-321)

The day-hour query returns one `(DAYOFWEEKNAME, HOUR, crash_count)` row per
present combination.  `day_hour_data.pivot(index='DAYOFWEEKNAME',
columns='HOUR', values='crash_count')` materialises one column per
*distinct hour present in the data*, in ascending order; the subsequent
`reindex(day_order)` forces the seven Monday..Sunday rows (a missing day
becomes an all-NaN row) and `fillna(0)` replaces every NaN cell by 0.
There is no reindex on columns. -/

def day_order : List String :=
  ["Monday", "Tuesday", "Wednesday", "Thursday", "Friday", "Saturday", "Sunday"]

/-- The pivot's columns: distinct hours present, ascending. -/
def pivotCols (raw : List (String × Nat × Nat)) : List Nat :=
  List.insertionSort (fun a b => a ≤ b) (raw.map fun r => r.2.1).dedup

/-- The pivot cell for (day, hour): the count of the matching raw row when
the combination is present, NaN (`none`) otherwise. -/
def pivotCellOpt (raw : List (String × Nat × Nat)) (d : String) (h : Nat) : Option Nat :=
  (raw.find? fun r => r.1 == d && r.2.1 == h).map fun r => r.2.2

/-- The pivot after `reindex(day_order)`: seven rows in Monday..Sunday
order, cells still optional. -/
def pivotReindexed (raw : List (String × Nat × Nat)) : List (String × List (Option Nat)) :=
  day_order.map fun d => (d, (pivotCols raw).map fun h => pivotCellOpt raw d h)

/-- The grid after `fillna(0)` (src/app.py lines 286-293). -/
def pivot_data (raw : List (String × Nat × Nat)) : List (String × List Nat) :=
  (pivotReindexed raw).map fun row => (row.1, row.2.map fun v => v.getD 0)

theorem find?_daypair_eq_some :
    ∀ (l : List (String × Nat × Nat)), (l.map fun r => (r.1, r.2.1)).Nodup →
      ∀ x ∈ l, l.find? (fun r => r.1 == x.1 && r.2.1 == x.2.1) = some x := by
  intro l
  induction l with
  | nil => simp
  | cons a l ih =>
    intro hnodup x hx
    simp only [List.map_cons, List.nodup_cons] at hnodup
    rcases List.mem_cons.mp hx with rfl | hx2
    · rw [List.find?_cons_of_pos _ (by simp)]
    · by_cases heq : a.1 = x.1 ∧ a.2.1 = x.2.1
      · exfalso
        apply hnodup.1
        have hmem : (x.1, x.2.1) ∈ List.map (fun r => (r.1, r.2.1)) l :=
          List.mem_map_of_mem _ hx2
        rw [← heq.1, ← heq.2] at hmem
        exact hmem
      · rw [List.find?_cons_of_neg _ (by simpa using heq), ih hnodup.2 x hx2]

theorem pivotCellOpt_mem (raw : List (String × Nat × Nat))
    (hnodup : (raw.map fun r => (r.1, r.2.1)).Nodup)
    (r : String × Nat × Nat) (hr : r ∈ raw) :
    pivotCellOpt raw r.1 r.2.1 = some r.2.2 := by
  rw [pivotCellOpt, find?_daypair_eq_some raw hnodup r hr]
  rfl

theorem pivotCellOpt_absent (raw : List (String × Nat × Nat)) (d : String) (h : Nat)
    (habs : ∀ c, (d, h, c) ∉ raw) : pivotCellOpt raw d h = none := by
  have hnone : (raw.find? fun r => r.1 == d && r.2.1 == h) = none := by
    rw [List.find?_eq_none]
    intro x hx
    simp only [Bool.and_eq_true, beq_iff_eq, not_and]
    intro h1 h2
    exact absurd ((by rw [← h1, ← h2] : (d, h, x.2.2) = x) ▸ hx) (habs x.2.2)
  rw [pivotCellOpt, hnone]
  rfl

/-! ### Monthly / seasonal trends (src/app.py lines 323-419)

The monthly query returns one `(MONTHNAME, crash_count)` row per month
present.  The seasonal loop sums, for each of the four fixed seasons, the
counts of the monthly rows whose name is in that season's month list. -/

def month_order : List String :=
  ["January", "February", "March", "April", "May", "June",
   "July", "August", "September", "October", "November", "December"]

def seasons : List (String × List String) :=
  [("Winter", ["December", "January", "February"]),
   ("Spring", ["March", "April", "May"]),
   ("Summer", ["June", "July", "August"]),
   ("Fall", ["September", "October", "November"])]

/-- Embedding of
`monthly_data[monthly_data['MONTHNAME'].isin(months)]['crash_count'].sum()`
(src/app.py line 396). -/
def seasonSum (monthly : List (String × Nat)) (months : List String) : Nat :=
  ((monthly.filter fun p => p.1 ∈ months).map Prod.snd).sum

/-- The seasonal table accumulated by the loop (src/app.py lines 390-397). -/
def seasonal_data (monthly : List (String × Nat)) : List (String × Nat) :=
  seasons.map fun sm => (sm.1, seasonSum monthly sm.2)

/-- Total count the monthly table records for month `m`; 0 when absent. -/
def monthCount (monthly : List (String × Nat)) (m : String) : Nat :=
  ((monthly.filter fun p => p.1 = m).map Prod.snd).sum

theorem seasonSum_cons (p : String × Nat) (l : List (String × Nat)) (ms : List String) :
    seasonSum (p :: l) ms = (if p.1 ∈ ms then p.2 else 0) + seasonSum l ms := by
  by_cases h : p.1 ∈ ms
  · simp [seasonSum, List.filter_cons, h]
  · simp [seasonSum, List.filter_cons, h]

theorem monthCount_cons (p : String × Nat) (l : List (String × Nat)) (m : String) :
    monthCount (p :: l) m = (if p.1 = m then p.2 else 0) + monthCount l m := by
  by_cases h : p.1 = m
  · simp [monthCount, List.filter_cons, h]
  · simp [monthCount, List.filter_cons, h]

theorem seasonSum_three (a b c : String) (hab : a ≠ b) (hac : a ≠ c) (hbc : b ≠ c) :
    ∀ l : List (String × Nat),
      seasonSum l [a, b, c] = monthCount l a + monthCount l b + monthCount l c := by
  intro l
  induction l with
  | nil => rfl
  | cons p l ih =>
    rw [seasonSum_cons, monthCount_cons, monthCount_cons, monthCount_cons, ih]
    by_cases ha : p.1 = a
    · simp [ha, hab, hac]
      omega
    · by_cases hb : p.1 = b
      · simp [hb, hbc, Ne.symm hab]
        omega
      · by_cases hc : p.1 = c
        · simp [hc, Ne.symm hac, Ne.symm hbc]
          omega
        · simp [ha, hb, hc]

theorem four_season_sum :
    ∀ monthly : List (String × Nat), (∀ p ∈ monthly, p.1 ∈ month_order) →
      seasonSum monthly ["December", "January", "February"] +
        seasonSum monthly ["March", "April", "May"] +
        seasonSum monthly ["June", "July", "August"] +
        seasonSum monthly ["September", "October", "November"] =
      (monthly.map Prod.snd).sum := by
  intro monthly
  induction monthly with
  | nil => intro _; rfl
  | cons p l ih =>
    intro hm
    have hp := hm p (List.mem_cons_self p l)
    have hl := fun q hq => hm q (List.mem_cons_of_mem p hq)
    rw [seasonSum_cons, seasonSum_cons, seasonSum_cons, seasonSum_cons,
      List.map_cons, List.sum_cons, ← ih hl]
    simp only [month_order, List.mem_cons, List.not_mem_nil, or_false] at hp
    rcases hp with h|h|h|h|h|h|h|h|h|h|h|h <;> rw [h] <;> simp <;> omega

/-! ### Top Intersections (src/app.py lines 101-176) -/

structure CrashRow where
  INTASTREETNAME : Option String
  INTBSTREETNAME : Option String
  LATITUDE : Rat
  LONGITUDE : Rat

structure IntersectionRow where
  INTASTREETNAME : Option String
  INTBSTREETNAME : Option String
  crash_count : Nat
  latitude : Rat
  longitude : Rat

/-- Modelled from the spec: the warehouse engine executing the aggregation
request of src/app.py lines 105-117 is external to the repository; spec
§4.3 fixes its behaviour — keep rows passing the mandatory non-null clause,
group by the two street names, count rows and average the coordinates per
group. -/
def intersectionGroups (rows : List CrashRow) : List IntersectionRow :=
  let kept := rows.filter fun r => r.INTASTREETNAME.isSome && r.INTBSTREETNAME.isSome
  let keys := (kept.map fun r => (r.INTASTREETNAME, r.INTBSTREETNAME)).dedup
  keys.map fun k =>
    let g := kept.filter fun r =>
      decide ((r.INTASTREETNAME, r.INTBSTREETNAME) = k)
    { INTASTREETNAME := k.1
      INTBSTREETNAME := k.2
      crash_count := g.length
      latitude := (g.map CrashRow.LATITUDE).sum / (g.length : Rat)
      longitude := (g.map CrashRow.LONGITUDE).sum / (g.length : Rat) }

/-- Modelled from the spec: `ORDER BY crash_count DESC LIMIT 10` of the
request at src/app.py lines 105-117, executed by the external warehouse —
sort the groups by descending count and keep at most 10. -/
def intersection_result (rows : List CrashRow) : List IntersectionRow :=
  ((intersectionGroups rows).mergeSort fun a b =>
    decide (b.crash_count ≤ a.crash_count)).take 10

/-! ### Data access and error handling (src/app.py lines 24-45) -/

/-- The external world seen by the data-access layer: the outcome of
BigQuery client creation and of each query execution.  `Except.error`
models a raised exception. -/
structure Env (α : Type) where
  clientOutcome : Except String Unit
  warehouse : String → Except String (List α)

/-- Embedding of `get_bigquery_client` (src/app.py lines 25-32): a
client-creation exception is caught, surfaced with `st.error`, and `None`
is returned.  The second component collects the user-visible messages. -/
def get_bigquery_client {α : Type} (e : Env α) : Option Unit × List String :=
  match e.clientOutcome with
  | Except.ok c => (some c, [])
  | Except.error msg => (none, ["Authentication error: " ++ msg])

/-- Embedding of `load_bigquery_data` (src/app.py lines 35-45): a `None`
client yields an empty dataframe; a query exception is caught, surfaced
with `st.error`, and an empty dataframe is returned. -/
def load_bigquery_data {α : Type} (e : Env α) (query : String) : List α × List String :=
  match get_bigquery_client e with
  | (none, msgs) => ([], msgs)
  | (some _, msgs) =>
    match e.warehouse query with
    | Except.ok df => (df, msgs)
    | Except.error msg => ([], msgs ++ ["Error executing query: " ++ msg])

/-! ### The result cache (src/app.py line 35) -/

/-- Modelled from the spec: `@st.cache_data(ttl=3600)` is implemented by
the Streamlit library, outside this repository.  Spec §3 (Cached Entry) and
§4.2: the cache maps the literal request text to the stored result and its
creation timestamp. -/
structure CacheState (α : Type) where
  entries : List (String × Nat × List α)

/-- The one-hour time-to-live, in seconds. -/
def cacheTTL : Nat := 3600

/-- Modelled from the spec: an entry is served while unexpired; an expired
or missing entry is a miss. -/
def cacheLookup {α : Type} (c : CacheState α) (now : Nat) (q : String) : Option (List α) :=
  match c.entries.find? fun en => en.1 == q with
  | some en => if now < en.2.1 + cacheTTL then some en.2.2 else none
  | none => none

/-- Modelled from the spec: on a hit return the stored result without
touching the warehouse; on a miss execute the request, store the result
with the current timestamp, and return it.  The boolean records whether the
warehouse was consulted. -/
def cachedLoad {α : Type} (e : Env α) (c : CacheState α) (now : Nat) (q : String) :
    List α × CacheState α × Bool :=
  match cacheLookup c now q with
  | some df => (df, c, false)
  | none =>
    ((load_bigquery_data e q).1,
      ⟨(q, now, (load_bigquery_data e q).1) :: c.entries⟩, true)

end CrashApp

namespace CrashApp

/-- C1: with both filter selections empty, the built predicate is exactly the
mandatory non-null-intersection clause, with no year and no severity clause. -/
theorem c1_where_clause_empty (ys : List Int) (ss : List String)
    (hy : ys = []) (hs : ss = []) :
    where_clauses ys ss = [mandatory_clause] ∧
    where_clause ys ss = mandatory_clause := by
  subst hy hs
  constructor
  · rfl
  · rfl

/-- Witness for C1 at the concrete empty selection. -/
theorem c1_where_clause_empty_witness :
    where_clauses [] [] = [mandatory_clause] ∧
    where_clause ([] : List Int) ([] : List String) = mandatory_clause :=
  c1_where_clause_empty [] [] rfl rfl

/-- C2: for a non-empty year selection the builder appends a year predicate,
and under the SQL reading of that predicate a row satisfies it exactly when
the year of its date is one of the selected years. -/
theorem c2_year_predicate (ys : List Int) (ss : List String) (h : ys ≠ []) :
    year_clause ys ∈ where_clauses ys ss ∧
    ∀ y : Int, sqlYearRowMatches (year_clause ys) y = ys.contains y := by
  constructor
  · have hne : ys.isEmpty = false := by
      cases ys with
      | nil => exact absurd rfl h
      | cons a t => rfl
    simp [where_clauses, hne]
  · intro y
    rw [sqlYearRowMatches, sqlParseYearIn_round ys h]
    rfl

/-- Witness for C2: with selection {2015, 2017}, a 2015 row satisfies the
generated predicate and a 2016 row does not. -/
theorem c2_year_predicate_witness :
    year_clause [2015, 2017] ∈ where_clauses [2015, 2017] [] ∧
    sqlYearRowMatches (year_clause [2015, 2017]) 2015 = true ∧
    sqlYearRowMatches (year_clause [2015, 2017]) 2016 = false := by
  have h := c2_year_predicate [2015, 2017] [] (by simp)
  refine ⟨h.1, ?_, ?_⟩
  · rw [h.2 2015]; decide
  · rw [h.2 2016]; decide

/-- C10: the severity fragment wraps each selected severity in single quotes
with no escaping.  For quote-free severities the fragment reads back as an
IN-list over exactly the selected set; a severity containing a single quote
makes the fragment unreadable as an IN-list. -/
theorem c10_severity_quoting :
    (∀ ss : List String, ss ≠ [] → (∀ s ∈ ss, sq ∉ s.data) →
      sqlParseSeverityIn (severity_clause ss) = some ss ∧
      ∀ sev : String, sqlSeverityRowMatches (severity_clause ss) sev = ss.contains sev)
    ∧ ∃ s : String, sq ∈ s.data ∧ sqlParseSeverityIn (severity_clause [s]) = none := by
  constructor
  · intro ss hne hq
    have hround := sqlParseSeverityIn_round ss hne hq
    refine ⟨hround, fun sev => ?_⟩
    rw [sqlSeverityRowMatches, hround]
    rfl
  · exact ⟨⟨['A', sq, 'B']⟩, by decide, by decide⟩

/-- Witness for C10 on a concrete quote-free selection. -/
theorem c10_severity_quoting_witness :
    sqlParseSeverityIn (severity_clause ["Minor", "Severe"]) = some ["Minor", "Severe"] :=
  (c10_severity_quoting.1 ["Minor", "Severe"] (by simp) (by decide)).1

/-- C3: the post-processed hourly series has exactly one entry per hour
0..23 in order; an hour present in the raw aggregation keeps its count and
an absent hour gets count 0. -/
theorem c3_hourly_series (raw : List (Nat × Nat)) (_hne : raw ≠ [])
    (hnodup : (raw.map Prod.fst).Nodup) (hlt : ∀ p ∈ raw, p.1 < 24) :
    (fillHours raw).length = 24 ∧
    (fillHours raw).map Prod.fst = List.range 24 ∧
    (∀ p ∈ raw, p ∈ fillHours raw) ∧
    (∀ h, h < 24 → h ∉ raw.map Prod.fst → (h, 0) ∈ fillHours raw) := by
  refine ⟨by simp [fillHours], by simp [fillHours, List.map_map, Function.comp_def], ?_, ?_⟩
  · intro p hp
    have hmem : p.1 ∈ List.range 24 := List.mem_range.mpr (hlt p hp)
    have hval := lookupHour_mem raw hnodup p hp
    have : (p.1, lookupHour raw p.1) ∈ fillHours raw :=
      List.mem_map_of_mem (fun h => (h, lookupHour raw h)) hmem
    rwa [hval] at this
  · intro h hh habs
    have hmem : h ∈ List.range 24 := List.mem_range.mpr hh
    have hnone : raw.find? (fun p => p.1 == h) = none := by
      rw [List.find?_eq_none]
      intro p hp
      simp only [beq_eq_false_iff_ne, ne_eq, Bool.not_eq_true, beq_iff_eq]
      intro he
      exact habs (he ▸ List.mem_map_of_mem Prod.fst hp)
    have hval : lookupHour raw h = 0 := by rw [lookupHour, hnone]
    have : (h, lookupHour raw h) ∈ fillHours raw :=
      List.mem_map_of_mem (fun h => (h, lookupHour raw h)) hmem
    rwa [hval] at this

/-- Witness for C3: raw result with only hour 8 (count 50) expands to the
full 24-hour series with zeros elsewhere. -/
theorem c3_hourly_series_witness :
    (fillHours [(8, 50)]).length = 24 ∧
    (8, 50) ∈ fillHours [(8, 50)] ∧
    (7, 0) ∈ fillHours [(8, 50)] := by
  have h := c3_hourly_series [(8, 50)] (by simp) (by simp) (by decide)
  exact ⟨h.1, h.2.2.1 (8, 50) (by simp), h.2.2.2 7 (by decide) (by decide)⟩

/-- C4 as stated is false: with a raw day-hour aggregation in which only
hour 8 occurs, the pivot grid has one column, not 24 columns [0..23]. -/
theorem c4_pivot_counterexample :
    [("Monday", 8, 5)] ≠ ([] : List (String × Nat × Nat)) ∧
    pivotCols [("Monday", 8, 5)] = [8] ∧
    pivotCols [("Monday", 8, 5)] ≠ List.range 24 ∧
    ((pivot_data [("Monday", 8, 5)]).map fun row => row.2.length) ≠
      List.replicate 7 24 := by
  refine ⟨by simp, by decide, by decide, by decide⟩

/-- C4 (amended): the reindexed pivot has exactly 7 rows in Monday..Sunday
order; its columns are the distinct hours present in the raw result in
ascending order — equal to [0..23] exactly when every hour 0..23 occurs in
the raw result; a present (day, hour) pair keeps its count, an absent pair
yields a NaN cell which `fillna` turns into 0 (whole missing day rows
included). -/
theorem c4_pivot_amended (raw : List (String × Nat × Nat)) (_hne : raw ≠ [])
    (hnodup : (raw.map fun r => (r.1, r.2.1)).Nodup) :
    ((pivot_data raw).map Prod.fst = day_order) ∧
    (pivot_data raw =
      day_order.map fun d => (d, (pivotCols raw).map fun h => (pivotCellOpt raw d h).getD 0)) ∧
    List.Sorted (fun a b => a ≤ b) (pivotCols raw) ∧
    (pivotCols raw).Nodup ∧
    (∀ h, h ∈ pivotCols raw ↔ h ∈ raw.map fun r => r.2.1) ∧
    (∀ r ∈ raw, pivotCellOpt raw r.1 r.2.1 = some r.2.2) ∧
    (∀ d h, (∀ c, (d, h, c) ∉ raw) → (pivotCellOpt raw d h).getD 0 = 0) ∧
    ((∀ h, h < 24 → h ∈ raw.map fun r => r.2.1) →
      (∀ h ∈ raw.map fun r => r.2.1, h < 24) →
      pivotCols raw = List.range 24) := by
  have hmem : ∀ h, h ∈ pivotCols raw ↔ h ∈ raw.map fun r => r.2.1 := by
    intro h
    rw [pivotCols, List.mem_insertionSort, List.mem_dedup]
  have hnd : (pivotCols raw).Nodup :=
    (List.perm_insertionSort _ _).nodup_iff.mpr (List.nodup_dedup _)
  have hsorted : List.Sorted (fun a b => a ≤ b) (pivotCols raw) :=
    List.sorted_insertionSort _ _
  refine ⟨?_, ?_, hsorted, hnd, hmem, pivotCellOpt_mem raw hnodup, ?_, ?_⟩
  · simp [pivot_data, pivotReindexed, List.map_map, Function.comp_def]
  · simp [pivot_data, pivotReindexed, List.map_map, Function.comp_def]
  · intro d h habs
    rw [pivotCellOpt_absent raw d h habs]
    rfl
  · intro hfull hbound
    refine List.eq_of_perm_of_sorted ?_ hsorted ?_
    · refine (List.perm_ext_iff_of_nodup hnd (List.nodup_range 24)).mpr fun a => ?_
      rw [hmem a, List.mem_range]
      exact ⟨fun ha => hbound a ha, fun ha => hfull a ha⟩
    · exact (List.sorted_lt_range 24).imp le_of_lt

/-- Witness for C4 (amended) on a raw result with a missing day row
(no Sunday), a missing cell and a missing hour column. -/
theorem c4_pivot_amended_witness :
    ((pivot_data [("Monday", 8, 5), ("Tuesday", 9, 7)]).map Prod.fst = day_order) ∧
    pivotCols [("Monday", 8, 5), ("Tuesday", 9, 7)] = [8, 9] ∧
    pivotCellOpt [("Monday", 8, 5), ("Tuesday", 9, 7)] "Monday" 8 = some 5 ∧
    (pivotCellOpt [("Monday", 8, 5), ("Tuesday", 9, 7)] "Sunday" 8).getD 0 = 0 := by
  have h := c4_pivot_amended [("Monday", 8, 5), ("Tuesday", 9, 7)] (by simp) (by decide)
  refine ⟨h.1, by decide, ?_, ?_⟩
  · exact h.2.2.2.2.2.1 ("Monday", 8, 5) (by simp)
  · exact h.2.2.2.2.2.2.1 "Sunday" 8 (by intro c; simp)

/-- C5: each seasonal value is exactly the sum of its three constituent
month counts (an absent month contributing 0), and the four seasonal values
sum to the grand total of all monthly counts. -/
theorem c5_seasonal_sums (monthly : List (String × Nat))
    (hm : ∀ p ∈ monthly, p.1 ∈ month_order) :
    seasonal_data monthly =
      [("Winter", monthCount monthly "December" + monthCount monthly "January" +
          monthCount monthly "February"),
       ("Spring", monthCount monthly "March" + monthCount monthly "April" +
          monthCount monthly "May"),
       ("Summer", monthCount monthly "June" + monthCount monthly "July" +
          monthCount monthly "August"),
       ("Fall", monthCount monthly "September" + monthCount monthly "October" +
          monthCount monthly "November")] ∧
    ((seasonal_data monthly).map Prod.snd).sum = (monthly.map Prod.snd).sum := by
  constructor
  · simp only [seasonal_data, seasons, List.map_cons, List.map_nil]
    rw [seasonSum_three "December" "January" "February" (by decide) (by decide) (by decide),
      seasonSum_three "March" "April" "May" (by decide) (by decide) (by decide),
      seasonSum_three "June" "July" "August" (by decide) (by decide) (by decide),
      seasonSum_three "September" "October" "November" (by decide) (by decide) (by decide)]
  · have h4 := four_season_sum monthly hm
    simp only [seasonal_data, seasons, List.map_cons, List.map_nil, List.sum_cons,
      List.sum_nil]
    omega

/-- Witness for C5: December 10 + January 20 + February 5 gives Winter 35,
the other seasons 0, and the grand total 35. -/
theorem c5_seasonal_sums_witness :
    seasonal_data [("December", 10), ("January", 20), ("February", 5)] =
      [("Winter", 35), ("Spring", 0), ("Summer", 0), ("Fall", 0)] ∧
    ((seasonal_data [("December", 10), ("January", 20), ("February", 5)]).map
      Prod.snd).sum = 35 := by
  have h := c5_seasonal_sums [("December", 10), ("January", 20), ("February", 5)]
    (by decide)
  constructor
  · rw [h.1]
    decide
  · rw [h.2]
    decide

/-- C6: the Top Intersections result never exceeds 10 rows and its
crash_count column is non-increasing from the first row to the last. -/
theorem c6_top_intersections (rows : List CrashRow) :
    (intersection_result rows).length ≤ 10 ∧
    ((intersection_result rows).map IntersectionRow.crash_count).Pairwise (· ≥ ·) := by
  constructor
  · rw [intersection_result]
    simp only [List.length_take]
    omega
  · have htrans : ∀ a b c : IntersectionRow,
        decide (b.crash_count ≤ a.crash_count) →
        decide (c.crash_count ≤ b.crash_count) →
        decide (c.crash_count ≤ a.crash_count) := by
      intro a b c h1 h2
      simp only [decide_eq_true_eq] at *
      omega
    have htotal : ∀ a b : IntersectionRow,
        (decide (b.crash_count ≤ a.crash_count) || decide (a.crash_count ≤ b.crash_count)) := by
      intro a b
      simp only [Bool.or_eq_true, decide_eq_true_eq]
      omega
    have hs := List.sorted_mergeSort htrans htotal (intersectionGroups rows)
    have ht := hs.sublist (List.take_sublist 10 _)
    rw [intersection_result]
    exact List.pairwise_map.mpr (ht.imp fun h => of_decide_eq_true h)

/-- C7: whenever client creation or query execution raises, the data-access
function returns an empty result and surfaces an error message instead of
propagating the exception (the embedding is a total function: there is no
exceptional exit). -/
theorem c7_failure_yields_empty {α : Type} (e : Env α) (q : String)
    (hfail : (∃ m, e.clientOutcome = Except.error m) ∨
      (∃ m, e.warehouse q = Except.error m)) :
    (load_bigquery_data e q).1 = [] ∧ (load_bigquery_data e q).2 ≠ [] := by
  rcases hfail with ⟨m, hm⟩ | ⟨m, hm⟩
  · rw [load_bigquery_data, get_bigquery_client, hm]
    exact ⟨rfl, by simp⟩
  · match hc : e.clientOutcome with
    | Except.error m2 =>
      rw [load_bigquery_data, get_bigquery_client, hc]
      exact ⟨rfl, by simp⟩
    | Except.ok c =>
      rw [load_bigquery_data, get_bigquery_client, hc, hm]
      exact ⟨rfl, by simp⟩

/-- Witness for C7: a failing warehouse call produces the empty table and
an inline error message. -/
theorem c7_failure_yields_empty_witness :
    (load_bigquery_data (⟨Except.ok (), fun _ => Except.error "connection lost"⟩ : Env Nat)
      "SELECT 1").1 = [] ∧
    (load_bigquery_data (⟨Except.ok (), fun _ => Except.error "connection lost"⟩ : Env Nat)
      "SELECT 1").2 ≠ [] :=
  c7_failure_yields_empty _ "SELECT 1" (Or.inr ⟨"connection lost", rfl⟩)

/-- C8: a second identical request within the entry's one-hour window
returns the identical stored result, leaves the cache unchanged and does
not consult the warehouse; the warehouse is consulted only when the lookup
misses (absent after restart, or expired). -/
theorem c8_cache_idempotent {α : Type} (e : Env α) (c : CacheState α)
    (t0 t1 : Nat) (q : String) (hmiss : cacheLookup c t0 q = none)
    (_h01 : t0 ≤ t1) (hwin : t1 < t0 + cacheTTL) :
    (cachedLoad e c t0 q).2.2 = true ∧
    (cachedLoad e (cachedLoad e c t0 q).2.1 t1 q).1 = (cachedLoad e c t0 q).1 ∧
    (cachedLoad e (cachedLoad e c t0 q).2.1 t1 q).2.1 = (cachedLoad e c t0 q).2.1 ∧
    (cachedLoad e (cachedLoad e c t0 q).2.1 t1 q).2.2 = false ∧
    (∀ (c2 : CacheState α) (t : Nat) (q2 : String),
      (cachedLoad e c2 t q2).2.2 = true → cacheLookup c2 t q2 = none) := by
  have hfirst : cachedLoad e c t0 q =
      ((load_bigquery_data e q).1,
        ⟨(q, t0, (load_bigquery_data e q).1) :: c.entries⟩, true) := by
    rw [cachedLoad, hmiss]
  have hlook2 : cacheLookup (⟨(q, t0, (load_bigquery_data e q).1) :: c.entries⟩ :
      CacheState α) t1 q = some (load_bigquery_data e q).1 := by
    rw [cacheLookup, List.find?_cons_of_pos _ (by simp)]
    simp only [if_pos (by omega : t1 < t0 + cacheTTL)]
  refine ⟨by rw [hfirst], ?_, ?_, ?_, ?_⟩
  · rw [hfirst, cachedLoad, hlook2]
  · rw [hfirst, cachedLoad, hlook2]
  · rw [hfirst, cachedLoad, hlook2]
  · intro c2 t q2 hcall
    match hl : cacheLookup c2 t q2 with
    | none => rfl
    | some df =>
      rw [cachedLoad, hl] at hcall
      exact absurd hcall (by simp)

/-- Witness for C8: a fresh cache at time 0, re-queried at time 10. -/
theorem c8_cache_idempotent_witness :
    (cachedLoad (⟨Except.ok (), fun _ => Except.ok [3, 1, 4]⟩ : Env Nat) ⟨[]⟩ 0 "Q").2.2
      = true ∧
    (cachedLoad (⟨Except.ok (), fun _ => Except.ok [3, 1, 4]⟩ : Env Nat)
      (cachedLoad (⟨Except.ok (), fun _ => Except.ok [3, 1, 4]⟩ : Env Nat) ⟨[]⟩ 0 "Q").2.1
      10 "Q").1 =
      (cachedLoad (⟨Except.ok (), fun _ => Except.ok [3, 1, 4]⟩ : Env Nat) ⟨[]⟩ 0 "Q").1 ∧
    (cachedLoad (⟨Except.ok (), fun _ => Except.ok [3, 1, 4]⟩ : Env Nat)
      (cachedLoad (⟨Except.ok (), fun _ => Except.ok [3, 1, 4]⟩ : Env Nat) ⟨[]⟩ 0 "Q").2.1
      10 "Q").2.2 = false := by
  have h := c8_cache_idempotent (⟨Except.ok (), fun _ => Except.ok [3, 1, 4]⟩ : Env Nat)
    ⟨[]⟩ 0 10 "Q" rfl (by omega) (by decide)
  exact ⟨h.1, h.2.1, h.2.2.2.1⟩

/-- C9: the chart-style selection changes only the rendering: the
post-processed series and the CSV export are identical for any two chart
styles over the same raw aggregation. -/
theorem c9_chart_style_no_data_effect (ct1 ct2 : ChartType) (raw : List (Nat × Nat)) :
    (hourlySection ct1 raw).data = (hourlySection ct2 raw).data ∧
    (hourlySection ct1 raw).csv = (hourlySection ct2 raw).csv ∧
    (hourlySection ct1 raw).chart.xs = (hourlySection ct2 raw).chart.xs ∧
    (hourlySection ct1 raw).chart.ys = (hourlySection ct2 raw).chart.ys :=
  ⟨rfl, rfl, rfl, rfl⟩

end CrashApp
